import Mathlib

/-!
Shallow embedding of the V8 zone allocator declared in deps/v8/src/zone.h
(Segment chain, bump-pointer Zone, ZoneScope nesting discipline and the
AssertNoZoneAllocation guard).  The header only declares the operations;
their bodies live in zone-inl.h / zone.cc, which are not part of this
repository snapshot, so the operation bodies below are modelled from the
specification's behavioural descriptions.  Addresses are modelled as
natural numbers; the system allocator is modelled as a monotone supply of
fresh, disjoint, 2*kAlignment-aligned address ranges.
-/

namespace ZoneModel

/-- Number of bytes in a kilobyte (KB in globals.h). -/
def KB : Nat := 1024

/-- Number of bytes in a megabyte (MB in globals.h). -/
def MB : Nat := KB * KB

/-- Size of a platform pointer (kPointerSize in globals.h).  We model the
32-bit configuration, the one described by the alignment comment in
zone.h lines 94-97 ("if the object being allocated has a size that is
divisible by 8 then its alignment will be 8"). -/
def kPointerSize : Nat := 4

/-- All pointers returned from Zone::New have this alignment (zone.h:97). -/
def kAlignment : Nat := kPointerSize

/-- Never allocate segments smaller than this size in bytes (zone.h:100). -/
def kMinimumSegmentSize : Nat := 8 * KB

/-- Never allocate segments larger than this size in bytes (zone.h:103). -/
def kMaximumSegmentSize : Nat := 1 * MB

/-- Never keep segments larger than this size in bytes around (zone.h:106). -/
def kMaximumKeptSegmentSize : Nat := 64 * KB

/-- Round x up to the next multiple of align (RoundUp in utils.h). -/
def roundUp (x align : Nat) : Nat := ((x + align - 1) / align) * align

/-- A segment of memory obtained from the system allocator: one
contiguously-addressed block carrying its own capacity.  `base` is the
start of its payload, `capacity` the number of payload bytes; the chain
link `next` of the C++ Segment is represented by the position of the
segment in the Zone's list. -/
structure Segment where
  base : Nat
  capacity : Nat
  deriving DecidableEq

/-- The Zone state.  Field names follow zone.h.  `suppress_depth` models
the process-wide reentrant AssertNoZoneAllocation counter of the spec;
`next_base_` models the system allocator's supply of fresh addresses. -/
structure Zone where
  position_ : Nat
  limit_ : Nat
  segment_head_ : List Segment
  segment_bytes_allocated_ : Nat
  scope_nesting_ : Nat
  zone_excess_limit_ : Nat
  suppress_depth : Nat
  next_base_ : Nat
  deriving DecidableEq

/-- A freshly constructed Zone: no system allocation has happened yet. -/
def Zone.fresh : Zone :=
  { position_ := 0, limit_ := 0, segment_head_ := [],
    segment_bytes_allocated_ := 0, scope_nesting_ := 0,
    zone_excess_limit_ := 0, suppress_depth := 0, next_base_ := 0 }

/-- Modelled from the spec: capacity of a freshly created segment for a
(rounded) request of `size` bytes, zone.cc's Zone::NewExpand sizing.  "At
least max(size, kMinimumSegmentSize), but never exceed
kMaximumSegmentSize; if the requested size alone exceeds the maximum, the
segment is sized exactly to fit that one request." -/
def newSegmentCapacity (size : Nat) : Nat :=
  if kMaximumSegmentSize < size then size
  else min (max size kMinimumSegmentSize) kMaximumSegmentSize

/-- Modelled from the spec: Zone::NewSegment (zone.cc, absent from the
snapshot) obtains raw memory of the given capacity from the system
allocator and pushes it to the front of the segment chain, adding its
capacity to segment_bytes_allocated_.  The system allocator hands out
fresh 2*kAlignment-aligned blocks. -/
def Zone.NewSegment (z : Zone) (capacity : Nat) : Segment × Zone :=
  let base := roundUp z.next_base_ (2 * kAlignment)
  let seg : Segment := { base := base, capacity := capacity }
  (seg,
    { z with
      segment_head_ := seg :: z.segment_head_,
      next_base_ := base + capacity,
      segment_bytes_allocated_ := z.segment_bytes_allocated_ + capacity })

/-- Modelled from the spec: the fresh-segment branch of Zone::NewExpand.
Creates a segment of `newSegmentCapacity size`, wires position_/limit_ to
its payload bounds and bump-allocates the (already rounded) request. -/
def Zone.newExpandFresh (z : Zone) (size : Nat) : Nat × Zone :=
  let cap := newSegmentCapacity size
  let p := z.NewSegment cap
  (p.1.base, { p.2 with position_ := p.1.base + size, limit_ := p.1.base + cap })

/-- True when the head of the chain is an unwired kept segment (limit_ is
zero exactly after DeleteAll) whose capacity suffices for the request, so
the next expansion can reuse it instead of asking the system allocator. -/
def Zone.canReuseKept (z : Zone) (size : Nat) : Bool :=
  match z.segment_head_ with
  | [] => false
  | keep :: _ => decide (z.limit_ = 0) && decide (size ≤ keep.capacity)

/-- Modelled from the spec: Zone::NewExpand (zone.cc, absent from the
snapshot).  Expands the Zone to hold at least `size` more bytes (size
already rounded to kAlignment) and allocates the bytes: the kept segment
left by DeleteAll is reused as the start of the chain when its capacity
suffices, otherwise a fresh segment is obtained from the system
allocator. -/
def Zone.NewExpand (z : Zone) (size : Nat) : Nat × Zone :=
  match z.segment_head_ with
  | keep :: _ =>
    if z.limit_ = 0 ∧ size ≤ keep.capacity then
      (keep.base,
        { z with position_ := keep.base + size,
                 limit_ := keep.base + keep.capacity })
    else z.newExpandFresh size
  | [] => z.newExpandFresh size

/-- Modelled from the spec: Zone::New (zone-inl.h, absent from the
snapshot).  Fails fatally (None) while an AssertNoZoneAllocation guard is
active; otherwise rounds the request up to kAlignment, bumps position_ if
the head segment has room and expands otherwise. -/
def Zone.New (z : Zone) (size : Nat) : Option (Nat × Zone) :=
  if z.suppress_depth = 0 then
    let rounded := roundUp size kAlignment
    if z.position_ + rounded ≤ z.limit_ then
      some (z.position_, { z with position_ := z.position_ + rounded })
    else some (z.NewExpand rounded)
  else none

/-- Modelled from the spec: Zone::DeleteAll (zone.cc, absent from the
snapshot).  Destroys every segment in the chain except that a head
segment of capacity at most kMaximumKeptSegmentSize is detached and
retained as the single kept segment; position_, limit_ and
segment_bytes_allocated_ are reset to zero. -/
def Zone.DeleteAll (z : Zone) : Zone :=
  { z with
    position_ := 0,
    limit_ := 0,
    segment_bytes_allocated_ := 0,
    segment_head_ :=
      match z.segment_head_ with
      | keep :: _ =>
        if keep.capacity ≤ kMaximumKeptSegmentSize then [keep] else []
      | [] => [] }

/-- Modelled from the spec: Zone::DeleteKeptSegment (zone.cc, absent from
the snapshot).  Discards the segment kept around by DeleteAll. -/
def Zone.DeleteKeptSegment (z : Zone) : Zone :=
  { z with segment_head_ := [] }

/-- Modelled from the spec: Zone::excess_allocation (zone-inl.h, absent
from the snapshot): true when more memory has been allocated in segments
than the limit allows. -/
def Zone.excess_allocation (z : Zone) : Bool :=
  decide (z.zone_excess_limit_ < z.segment_bytes_allocated_)

/-- Zone scopes are in one of two modes (zone.h:44-47). -/
inductive ZoneScopeMode
  | DELETE_ON_EXIT
  | DONT_DELETE_ON_EXIT
  deriving DecidableEq

/-- A ZoneScope value: the delete-on-exit flag.  The nesting counter it
pairs with lives in the Zone (scope_nesting_). -/
structure ZoneScope where
  mode_ : ZoneScopeMode
  deriving DecidableEq

/-- ZoneScope::DeleteOnExit (zone.h:227-229): requests deletion on exit
by writing DELETE_ON_EXIT into mode_. -/
def ZoneScope.DeleteOnExit (s : ZoneScope) : ZoneScope :=
  { s with mode_ := ZoneScopeMode.DELETE_ON_EXIT }

/-- One event of the stack-disciplined scope-guard protocol. -/
inductive ScopeEvent
  | construct (mode : ZoneScopeMode)
  | destruct
  deriving DecidableEq

/-- Modelled from the spec: one scope-guard construction or (LIFO)
destruction over the zone, together with the stack of live guards.
Construction increments scope_nesting_; destruction decrements it and,
when the depth is now zero and the unwinding guard is in delete-on-exit
mode, calls DeleteAll.  The returned Bool reports whether DeleteAll was
invoked by this event. -/
def scopeStep (st : Zone × List ZoneScope) (e : ScopeEvent) :
    (Zone × List ZoneScope) × Bool :=
  match e with
  | ScopeEvent.construct m =>
    (({ st.1 with scope_nesting_ := st.1.scope_nesting_ + 1 },
      { mode_ := m } :: st.2), false)
  | ScopeEvent.destruct =>
    match st.2 with
    | [] => (st, false)
    | g :: rest =>
      let z : Zone := { st.1 with scope_nesting_ := st.1.scope_nesting_ - 1 }
      if z.scope_nesting_ = 0 ∧ g.mode_ = ZoneScopeMode.DELETE_ON_EXIT then
        ((z.DeleteAll, rest), true)
      else ((z, rest), false)

/-- Run a sequence of scope-guard events, recording for each event
whether it invoked DeleteAll. -/
def runScopeEvents :
    Zone × List ZoneScope → List ScopeEvent → (Zone × List ZoneScope) × List Bool
  | st, [] => (st, [])
  | st, e :: es =>
    let r := scopeStep st e
    let rr := runScopeEvents r.1 es
    (rr.1, r.2 :: rr.2)

/-- An AssertNoZoneAllocation guard value; prev_ (zone.h:171) remembers
whether allocation was already forbidden at construction. -/
structure NoAllocGuard where
  prev_ : Bool
  deriving DecidableEq

/-- Modelled from the spec: constructing an AssertNoZoneAllocation guard
increments the reentrant suppression counter and remembers whether it was
already nonzero. -/
def noAllocGuardConstruct (z : Zone) : NoAllocGuard × Zone :=
  ({ prev_ := z.suppress_depth != 0 },
   { z with suppress_depth := z.suppress_depth + 1 })

/-- Modelled from the spec: destroying an AssertNoZoneAllocation guard
decrements the reentrant suppression counter, restoring the suppression
state that held before the matching construction. -/
def noAllocGuardDestruct (_g : NoAllocGuard) (z : Zone) : Zone :=
  { z with suppress_depth := z.suppress_depth - 1 }

/-- Run a sequence of allocation requests against the zone, collecting
the (address, requested size) results.  Stops at a fatal assertion. -/
def Zone.runAllocs : Zone → List Nat → List (Nat × Nat) × Zone
  | z, [] => ([], z)
  | z, size :: rest =>
    match Zone.New z size with
    | none => ([], z)
    | some (a, z1) =>
      let r := Zone.runAllocs z1 rest
      ((a, size) :: r.1, r.2)

/-- The reachable-state invariant of a Zone: the free region [position_,
limit_) sits below the system allocator's frontier, every live segment's
payload sits below the frontier, and a nonempty free region is a
sub-range of the head segment's payload. -/
structure ZoneInv (z : Zone) : Prop where
  pos_le_limit : z.position_ ≤ z.limit_
  limit_le_next : z.limit_ ≤ z.next_base_
  segs_le_next : ∀ s ∈ z.segment_head_, s.base + s.capacity ≤ z.next_base_
  head_payload : z.position_ < z.limit_ →
    ∃ k rest, z.segment_head_ = k :: rest ∧ k.base ≤ z.position_ ∧
      z.limit_ ≤ k.base + k.capacity

lemma zone_fresh_inv : ZoneInv Zone.fresh := by
  refine ⟨Nat.le_refl _, Nat.le_refl _, ?_, ?_⟩
  · intro s hs
    simp [Zone.fresh] at hs
  · intro h
    simp [Zone.fresh] at h

lemma le_roundUp_kAlignment (x : Nat) : x ≤ roundUp x kAlignment := by
  unfold roundUp kAlignment kPointerSize
  omega

lemma le_roundUp_two_kAlignment (x : Nat) : x ≤ roundUp x (2 * kAlignment) := by
  unfold roundUp kAlignment kPointerSize
  omega

lemma le_newSegmentCapacity (size : Nat) : size ≤ newSegmentCapacity size := by
  unfold newSegmentCapacity kMinimumSegmentSize kMaximumSegmentSize MB KB
  split <;> omega

lemma newExpandFresh_spec (z : Zone) (s : Nat) (hinv : ZoneInv z) :
    ZoneInv (z.newExpandFresh s).2 ∧
    z.position_ ≤ (z.newExpandFresh s).1 ∧
    (z.newExpandFresh s).1 + s = (z.newExpandFresh s).2.position_ := by
  have hbase : z.next_base_ ≤ roundUp z.next_base_ (2 * kAlignment) :=
    le_roundUp_two_kAlignment _
  have hcap : s ≤ newSegmentCapacity s := le_newSegmentCapacity s
  unfold Zone.newExpandFresh Zone.NewSegment
  refine ⟨⟨?_, ?_, ?_, ?_⟩, ?_, rfl⟩
  · exact Nat.add_le_add_left hcap _
  · exact Nat.le_refl _
  · intro seg hseg
    rcases List.mem_cons.mp hseg with h1 | h2
    · subst h1
      exact Nat.le_refl _
    · exact le_trans (hinv.segs_le_next seg h2)
        (le_trans hbase (Nat.le_add_right _ _))
  · intro _
    exact ⟨_, z.segment_head_, rfl, Nat.le_add_right _ _, Nat.le_refl _⟩
  · exact le_trans hinv.pos_le_limit (le_trans hinv.limit_le_next hbase)

lemma newExpand_spec (z : Zone) (s : Nat) (hinv : ZoneInv z) :
    ZoneInv (z.NewExpand s).2 ∧
    z.position_ ≤ (z.NewExpand s).1 ∧
    (z.NewExpand s).1 + s = (z.NewExpand s).2.position_ := by
  unfold Zone.NewExpand
  cases hm : z.segment_head_ with
  | nil => exact newExpandFresh_spec z s hinv
  | cons keep rest =>
    dsimp only
    by_cases hc : z.limit_ = 0 ∧ s ≤ keep.capacity
    · have hkeep : keep.base + keep.capacity ≤ z.next_base_ :=
        hinv.segs_le_next keep (hm ▸ List.mem_cons_self keep rest)
      have hpos : z.position_ = 0 := by
        have := hinv.pos_le_limit
        omega
      rw [if_pos hc]
      refine ⟨⟨?_, ?_, ?_, ?_⟩, ?_, rfl⟩
      · exact Nat.add_le_add_left hc.2 _
      · exact hkeep
      · intro seg hseg
        exact hinv.segs_le_next seg (hm ▸ hseg)
      · intro _
        exact ⟨keep, rest, rfl, Nat.le_add_right _ _, Nat.le_refl _⟩
      · omega
    · simp only [hc, if_false]
      exact newExpandFresh_spec z s hinv

lemma new_step {z z' : Zone} {size a : Nat} (hinv : ZoneInv z)
    (h : z.New size = some (a, z')) :
    ZoneInv z' ∧ z.position_ ≤ a ∧ a + size ≤ z'.position_ := by
  unfold Zone.New at h
  by_cases hs : z.suppress_depth = 0
  · simp only [hs, if_true] at h
    by_cases hfast : z.position_ + roundUp size kAlignment ≤ z.limit_
    · simp only [hfast, if_true, Option.some.injEq, Prod.mk.injEq] at h
      obtain ⟨ha, hz⟩ := h
      subst ha
      subst hz
      refine ⟨⟨?_, hinv.limit_le_next, hinv.segs_le_next, ?_⟩, Nat.le_refl _, ?_⟩
      · exact hfast
      · intro hlt
        have hlt0 : z.position_ < z.limit_ := by
          have := le_roundUp_kAlignment size
          simp only at hlt
          omega
        obtain ⟨k, rest, hm, hk1, hk2⟩ := hinv.head_payload hlt0
        exact ⟨k, rest, hm, le_trans hk1 (Nat.le_add_right _ _), hk2⟩
      · have := le_roundUp_kAlignment size
        simp only
        omega
    · simp only [hfast, if_false, Option.some.injEq] at h
      obtain ⟨hspec, hle, heq⟩ := newExpand_spec z (roundUp size kAlignment) hinv
      have ha : a = (z.NewExpand (roundUp size kAlignment)).1 := by
        simpa using congrArg Prod.fst h.symm
      have hz : z' = (z.NewExpand (roundUp size kAlignment)).2 := by
        simpa using congrArg Prod.snd h.symm
      subst ha
      subst hz
      refine ⟨hspec, hle, ?_⟩
      have := le_roundUp_kAlignment size
      omega
  · rw [if_neg hs] at h
    exact Option.noConfusion h

lemma new_segments {z z' : Zone} {size a : Nat} (h : z.New size = some (a, z')) :
    ∃ ns : List Segment, z'.segment_head_ = ns ++ z.segment_head_ ∧
      z'.segment_bytes_allocated_ =
        z.segment_bytes_allocated_ + (ns.map Segment.capacity).sum := by
  unfold Zone.New at h
  by_cases hs : z.suppress_depth = 0
  · simp only [hs, if_true] at h
    by_cases hfast : z.position_ + roundUp size kAlignment ≤ z.limit_
    · simp only [hfast, if_true, Option.some.injEq, Prod.mk.injEq] at h
      refine ⟨[], ?_, ?_⟩ <;> simp [← h.2]
    · simp only [hfast, if_false, Option.some.injEq] at h
      have hz : z' = (z.NewExpand (roundUp size kAlignment)).2 := by
        simpa using congrArg Prod.snd h.symm
      subst hz
      unfold Zone.NewExpand
      cases hm : z.segment_head_ with
      | nil =>
        refine ⟨[⟨roundUp z.next_base_ (2 * kAlignment),
          newSegmentCapacity (roundUp size kAlignment)⟩], ?_, ?_⟩ <;>
          simp [Zone.newExpandFresh, Zone.NewSegment, hm]
      | cons keep rest =>
        by_cases hc : z.limit_ = 0 ∧ roundUp size kAlignment ≤ keep.capacity
        · simp only [hc, if_true]
          exact ⟨[], by simp [hm], by simp⟩
        · simp only [hc, if_false]
          refine ⟨[⟨roundUp z.next_base_ (2 * kAlignment),
            newSegmentCapacity (roundUp size kAlignment)⟩], ?_, ?_⟩ <;>
            simp [Zone.newExpandFresh, Zone.NewSegment, hm]
  · rw [if_neg hs] at h
    exact Option.noConfusion h

lemma runAllocs_cons_none {z : Zone} {size : Nat} {rest : List Nat}
    (h : z.New size = none) :
    Zone.runAllocs z (size :: rest) = ([], z) := by
  simp only [Zone.runAllocs]
  rw [h]

lemma runAllocs_cons_some {z z1 : Zone} {size a : Nat} {rest : List Nat}
    (h : z.New size = some (a, z1)) :
    Zone.runAllocs z (size :: rest) =
      ((a, size) :: (Zone.runAllocs z1 rest).1, (Zone.runAllocs z1 rest).2) := by
  simp only [Zone.runAllocs]
  rw [h]

/-- Runs of allocations return address ranges chained between a lower
cursor bound and the final cursor. -/
def Chained : Nat → List (Nat × Nat) → Nat → Prop
  | lo, [], hi => lo ≤ hi
  | lo, p :: rest, hi => lo ≤ p.1 ∧ Chained (p.1 + p.2) rest hi

lemma chained_weaken {lo lo2 hi : Nat} {l : List (Nat × Nat)} (hlo : lo2 ≤ lo)
    (h : Chained lo l hi) : Chained lo2 l hi := by
  cases l with
  | nil => exact le_trans hlo h
  | cons p rest => exact ⟨le_trans hlo h.1, h.2⟩

lemma chained_head_le : ∀ (l : List (Nat × Nat)) (lo hi : Nat),
    Chained lo l hi → ∀ q ∈ l, lo ≤ q.1
  | [], _, _, _, q, hq => absurd hq (List.not_mem_nil q)
  | p :: rest, lo, hi, h, q, hq => by
    rcases List.mem_cons.mp hq with h1 | h2
    · subst h1
      exact h.1
    · exact le_trans (le_trans h.1 (Nat.le_add_right _ _))
        (chained_head_le rest (p.1 + p.2) hi h.2 q h2)

lemma chained_pairwise : ∀ (l : List (Nat × Nat)) (lo hi : Nat),
    Chained lo l hi → l.Pairwise (fun p q => p.1 + p.2 ≤ q.1)
  | [], _, _, _ => List.Pairwise.nil
  | p :: rest, lo, hi, h => by
    refine List.Pairwise.cons ?_ (chained_pairwise rest (p.1 + p.2) hi h.2)
    intro q hq
    exact chained_head_le rest (p.1 + p.2) hi h.2 q hq

lemma runAllocs_chained : ∀ (sizes : List Nat) (z : Zone), ZoneInv z →
    ZoneInv (Zone.runAllocs z sizes).2 ∧
      Chained z.position_ (Zone.runAllocs z sizes).1
        (Zone.runAllocs z sizes).2.position_
  | [], z, hinv => ⟨hinv, Nat.le_refl _⟩
  | size :: rest, z, hinv => by
    cases hne : z.New size with
    | none =>
      rw [runAllocs_cons_none hne]
      exact ⟨hinv, Nat.le_refl _⟩
    | some p =>
      obtain ⟨a, z1⟩ := p
      have hstep := new_step hinv hne
      have hrec := runAllocs_chained rest z1 hstep.1
      rw [runAllocs_cons_some hne]
      exact ⟨hrec.1, hstep.2.1, chained_weaken hstep.2.2 hrec.2⟩

lemma runAllocs_segments : ∀ (sizes : List Nat) (z : Zone),
    ∃ ns : List Segment,
      (Zone.runAllocs z sizes).2.segment_head_ = ns ++ z.segment_head_ ∧
      (Zone.runAllocs z sizes).2.segment_bytes_allocated_ =
        z.segment_bytes_allocated_ + (ns.map Segment.capacity).sum
  | [], z => ⟨[], by simp [Zone.runAllocs]⟩
  | size :: rest, z => by
    cases hne : z.New size with
    | none =>
      rw [runAllocs_cons_none hne]
      exact ⟨[], by simp⟩
    | some p =>
      obtain ⟨a, z1⟩ := p
      obtain ⟨ns1, hc1, hb1⟩ := new_segments hne
      obtain ⟨ns2, hc2, hb2⟩ := runAllocs_segments rest z1
      rw [runAllocs_cons_some hne]
      refine ⟨ns2 ++ ns1, ?_, ?_⟩
      · simp only
        rw [hc2, hc1, List.append_assoc]
      · simp only
        rw [hb2, hb1, List.map_append, List.sum_append]
        omega

/-- A concrete zone with one wired 8 KB segment, used to instantiate the
invariant-based theorems. -/
def zWired : Zone :=
  { position_ := 0, limit_ := 8192, segment_head_ := [⟨0, 8192⟩],
    segment_bytes_allocated_ := 8192, scope_nesting_ := 0,
    zone_excess_limit_ := 1000000, suppress_depth := 0, next_base_ := 8192 }

lemma zWired_inv : ZoneInv zWired := by
  refine ⟨by decide, by decide, ?_, ?_⟩
  · intro s hs
    rcases List.mem_cons.mp hs with h1 | h2
    · subst h1
      decide
    · exact absurd h2 (List.not_mem_nil _)
  · intro _
    exact ⟨⟨0, 8192⟩, [], rfl, by decide, by decide⟩

/-- C1: for every allocation request of size at least 0 made when the
head segment has room (limit_ - position_ at least the request rounded up
to kAlignment), New bumps position_ by the rounded size and returns the
old position_; every returned address in [old position_, old position_ +
size) lies inside some live segment's payload.  Otherwise the arena
expands via NewExpand. -/
theorem c1_allocate_bump (z : Zone) (size : Nat) (hinv : ZoneInv z)
    (hallow : z.suppress_depth = 0) :
    (roundUp size kAlignment ≤ z.limit_ - z.position_ →
      z.New size = some (z.position_,
        { z with position_ := z.position_ + roundUp size kAlignment }) ∧
      (∀ a, z.position_ ≤ a → a < z.position_ + size →
        ∃ s ∈ z.segment_head_, s.base ≤ a ∧ a < s.base + s.capacity)) ∧
    (z.limit_ - z.position_ < roundUp size kAlignment →
      z.New size = some (z.NewExpand (roundUp size kAlignment))) := by
  have hpl := hinv.pos_le_limit
  constructor
  · intro hroom
    have hfast : z.position_ + roundUp size kAlignment ≤ z.limit_ := by omega
    constructor
    · simp [Zone.New, hallow, hfast]
    · intro a ha1 ha2
      have hr := le_roundUp_kAlignment size
      have hlt : z.position_ < z.limit_ := by omega
      obtain ⟨k, rest, hm, hk1, hk2⟩ := hinv.head_payload hlt
      refine ⟨k, ?_, le_trans hk1 ha1, ?_⟩
      · rw [hm]
        exact List.mem_cons_self k rest
      · omega
  · intro hnoroom
    have hfastFalse : ¬ z.position_ + roundUp size kAlignment ≤ z.limit_ := by
      omega
    simp [Zone.New, hallow, hfastFalse]

/-- Witness for c1_allocate_bump: a wired 8 KB segment with room for a
4-byte request. -/
theorem c1_allocate_bump_witness :
    ZoneInv zWired ∧ roundUp 4 kAlignment ≤ zWired.limit_ - zWired.position_ ∧
    zWired.New 4 = some (zWired.position_,
      { zWired with position_ := zWired.position_ + roundUp 4 kAlignment }) :=
  ⟨zWired_inv, by decide,
   ((c1_allocate_bump zWired 4 zWired_inv rfl).1 (by decide)).1⟩

/-- C2: DeleteAll destroys every segment in the chain except that a head
segment of capacity at most kMaximumKeptSegmentSize is detached and
retained as the single kept segment; afterwards position_ = limit_ = 0,
segment_bytes_allocated_ is reset to zero, and the chain is either empty
or holds exactly the kept segment. -/
theorem c2_deleteAll_spec (z : Zone) :
    (z.DeleteAll).position_ = 0 ∧ (z.DeleteAll).limit_ = 0 ∧
    (z.DeleteAll).segment_bytes_allocated_ = 0 ∧
    (∀ keep rest, z.segment_head_ = keep :: rest →
      (keep.capacity ≤ kMaximumKeptSegmentSize →
        (z.DeleteAll).segment_head_ = [keep]) ∧
      (kMaximumKeptSegmentSize < keep.capacity →
        (z.DeleteAll).segment_head_ = [])) ∧
    (z.segment_head_ = [] → (z.DeleteAll).segment_head_ = []) := by
  refine ⟨rfl, rfl, rfl, ?_, ?_⟩
  · intro keep rest hm
    constructor
    · intro hk
      simp [Zone.DeleteAll, hm, hk]
    · intro hk
      have hk2 : ¬ keep.capacity ≤ kMaximumKeptSegmentSize := by omega
      simp [Zone.DeleteAll, hm, hk2]
  · intro hm
    simp [Zone.DeleteAll, hm]

/-- Witness for c2_deleteAll_spec: a single 8 KB head segment is small
enough to be kept. -/
theorem c2_deleteAll_spec_witness :
    zWired.segment_head_ = ⟨0, 8192⟩ :: [] ∧
    (Segment.capacity ⟨0, 8192⟩ ≤ kMaximumKeptSegmentSize) ∧
    (zWired.DeleteAll).segment_head_ = [⟨0, 8192⟩] ∧
    (zWired.DeleteAll).position_ = 0 ∧ (zWired.DeleteAll).limit_ = 0 ∧
    (zWired.DeleteAll).segment_bytes_allocated_ = 0 :=
  ⟨rfl, by decide,
   ((c2_deleteAll_spec zWired).2.2.2.1 ⟨0, 8192⟩ [] rfl).1 (by decide),
   (c2_deleteAll_spec zWired).1, (c2_deleteAll_spec zWired).2.1,
   (c2_deleteAll_spec zWired).2.2.1⟩

/-- C4: evaluation of the allocator at the failing input: on a fresh
zone, allocate 4 bytes and then 8 bytes.  The second request has size
divisible by 2 * kAlignment = 8, yet the returned address is 4, which is
kAlignment-aligned but not 8-aligned, contradicting the claim and the
comment of zone.h lines 94-97. -/
theorem c4_alignment_failing_input :
    (((Zone.fresh.New 4).bind fun p => p.2.New 8).map Prod.fst) = some 4 ∧
    8 % (2 * kAlignment) = 0 ∧ ¬ 4 % (2 * kAlignment) = 0 ∧
    4 % kAlignment = 0 := by
  decide

lemma newSegmentCapacity_roundUp_bounds (size : Nat) :
    max size kMinimumSegmentSize ≤ newSegmentCapacity (roundUp size kAlignment) ∧
    (size ≤ kMaximumSegmentSize →
      newSegmentCapacity (roundUp size kAlignment) ≤ kMaximumSegmentSize) ∧
    (kMaximumSegmentSize < size →
      newSegmentCapacity (roundUp size kAlignment) = roundUp size kAlignment) := by
  unfold newSegmentCapacity roundUp kAlignment kPointerSize kMinimumSegmentSize
    kMaximumSegmentSize MB KB
  split <;> omega

/-- C5: whenever the head segment cannot satisfy a request and no kept
segment can be reused, the expansion path creates a new head segment
whose capacity is newSegmentCapacity of the rounded request: at least
max(size, kMinimumSegmentSize), at most kMaximumSegmentSize unless the
request alone exceeds the maximum, in which case it is sized exactly to
fit the (rounded) request; the sizing is a pure function of the single
request, so it does not change the cap applied to future segments. -/
theorem c5_expansion_sizing (z : Zone) (size : Nat)
    (hallow : z.suppress_depth = 0)
    (hnofast : z.limit_ < z.position_ + roundUp size kAlignment)
    (hnoreuse : z.canReuseKept (roundUp size kAlignment) = false) :
    ((z.New size).map fun p => p.2.segment_head_.head?) =
      some (some { base := roundUp z.next_base_ (2 * kAlignment),
                   capacity := newSegmentCapacity (roundUp size kAlignment) }) ∧
    max size kMinimumSegmentSize ≤ newSegmentCapacity (roundUp size kAlignment) ∧
    (size ≤ kMaximumSegmentSize →
      newSegmentCapacity (roundUp size kAlignment) ≤ kMaximumSegmentSize) ∧
    (kMaximumSegmentSize < size →
      newSegmentCapacity (roundUp size kAlignment) = roundUp size kAlignment) := by
  refine ⟨?_, newSegmentCapacity_roundUp_bounds size⟩
  have hfastFalse : ¬ z.position_ + roundUp size kAlignment ≤ z.limit_ := by
    omega
  simp only [Zone.New, if_pos hallow, if_neg hfastFalse, Option.map_some]
  cases hm : z.segment_head_ with
  | nil =>
    simp [Zone.NewExpand, hm, Zone.newExpandFresh, Zone.NewSegment]
  | cons keep rest =>
    have hnr : ¬ (z.limit_ = 0 ∧ roundUp size kAlignment ≤ keep.capacity) := by
      intro hcon
      unfold Zone.canReuseKept at hnoreuse
      rw [hm] at hnoreuse
      simp [hcon.1, hcon.2] at hnoreuse
    simp [Zone.NewExpand, hm, hnr, Zone.newExpandFresh, Zone.NewSegment]

/-- Witness for c5_expansion_sizing: a fresh zone and a 100-byte request
force the creation of a kMinimumSegmentSize segment. -/
theorem c5_expansion_sizing_witness :
    Zone.fresh.limit_ < Zone.fresh.position_ + roundUp 100 kAlignment ∧
    Zone.fresh.canReuseKept (roundUp 100 kAlignment) = false ∧
    ((Zone.fresh.New 100).map fun p => p.2.segment_head_.head?) =
      some (some { base := roundUp Zone.fresh.next_base_ (2 * kAlignment),
                   capacity := newSegmentCapacity (roundUp 100 kAlignment) }) :=
  ⟨by decide, by decide,
   (c5_expansion_sizing Zone.fresh 100 rfl (by decide) (by decide)).1⟩

/-- C6: any two allocations performed on the same arena without an
intervening DeleteAll return disjoint byte ranges. -/
theorem c6_non_overlap (z : Zone) (sizes : List Nat) (hinv : ZoneInv z) :
    (Zone.runAllocs z sizes).1.Pairwise
      (fun p q => p.1 + p.2 ≤ q.1 ∨ q.1 + q.2 ≤ p.1) := by
  have h := runAllocs_chained sizes z hinv
  exact (chained_pairwise _ _ _ h.2).imp (fun hle => Or.inl hle)

/-- Witness for c6_non_overlap: two allocations of 4 and 8 bytes from a
fresh zone. -/
theorem c6_non_overlap_witness :
    ZoneInv Zone.fresh ∧
    (Zone.runAllocs Zone.fresh [4, 8]).1.Pairwise
      (fun p q => p.1 + p.2 ≤ q.1 ∨ q.1 + q.2 ≤ p.1) :=
  ⟨zone_fresh_inv, c6_non_overlap Zone.fresh [4, 8] zone_fresh_inv⟩

/-- C7: across any run of allocations, segment_bytes_allocated_ grows by
exactly the sum of the capacities of the segments newly obtained from the
system allocator (the new prefix of the chain), independently of the
bytes handed out to callers; it is monotonically non-decreasing between
bulk-frees and reset to zero by DeleteAll. -/
theorem c7_bytes_accounting (z : Zone) (sizes : List Nat) :
    (∃ ns : List Segment,
      (Zone.runAllocs z sizes).2.segment_head_ = ns ++ z.segment_head_ ∧
      (Zone.runAllocs z sizes).2.segment_bytes_allocated_ =
        z.segment_bytes_allocated_ + (ns.map Segment.capacity).sum) ∧
    z.segment_bytes_allocated_ ≤
      (Zone.runAllocs z sizes).2.segment_bytes_allocated_ ∧
    (z.DeleteAll).segment_bytes_allocated_ = 0 := by
  obtain ⟨ns, h1, h2⟩ := runAllocs_segments sizes z
  exact ⟨⟨ns, h1, h2⟩, by omega, rfl⟩

/-- C3: over a properly nested (LIFO) trace, a scope-guard construction
increments scope_nesting_ by one without freeing; a destruction
decrements it by one, and DeleteAll is invoked exactly when that
destruction brings the depth to 0 and the destroyed guard is in
delete-on-exit mode at that moment; when DeleteAll is not invoked, the
zone is only decremented (nothing is freed). -/
theorem c3_scope_nesting (z : Zone) (stack : List ZoneScope)
    (m : ZoneScopeMode) (g : ZoneScope) (rest : List ZoneScope)
    (hdepth : z.scope_nesting_ = rest.length + 1) :
    ((scopeStep (z, stack) (ScopeEvent.construct m)).1.1.scope_nesting_ =
        z.scope_nesting_ + 1 ∧
      (scopeStep (z, stack) (ScopeEvent.construct m)).2 = false) ∧
    (scopeStep (z, g :: rest) ScopeEvent.destruct).1.1.scope_nesting_ =
      rest.length ∧
    ((scopeStep (z, g :: rest) ScopeEvent.destruct).2 = true ↔
      (rest.length = 0 ∧ g.mode_ = ZoneScopeMode.DELETE_ON_EXIT)) ∧
    ((scopeStep (z, g :: rest) ScopeEvent.destruct).2 = false →
      (scopeStep (z, g :: rest) ScopeEvent.destruct).1.1 =
        { z with scope_nesting_ := z.scope_nesting_ - 1 }) ∧
    ((scopeStep (z, g :: rest) ScopeEvent.destruct).2 = true →
      (scopeStep (z, g :: rest) ScopeEvent.destruct).1.1 =
        Zone.DeleteAll { z with scope_nesting_ := z.scope_nesting_ - 1 }) := by
  refine ⟨⟨by simp [scopeStep], by simp [scopeStep]⟩, ?_⟩
  by_cases hcond : z.scope_nesting_ - 1 = 0 ∧
      g.mode_ = ZoneScopeMode.DELETE_ON_EXIT
  · have hflag : scopeStep (z, g :: rest) ScopeEvent.destruct =
        ((Zone.DeleteAll { z with scope_nesting_ := z.scope_nesting_ - 1 },
          rest), true) := by
      simp [scopeStep, hcond.1, hcond.2]
    rw [hflag]
    refine ⟨?_, ?_, ?_, ?_⟩
    · simp [Zone.DeleteAll]
      omega
    · simp only [true_iff]
      exact ⟨by omega, hcond.2⟩
    · intro hft
      exact absurd hft (by simp)
    · intro _
      rfl
  · have hflag : scopeStep (z, g :: rest) ScopeEvent.destruct =
        (({ z with scope_nesting_ := z.scope_nesting_ - 1 }, rest), false) := by
      simp [scopeStep, hcond]
    rw [hflag]
    refine ⟨?_, ?_, ?_, ?_⟩
    · simp
      omega
    · constructor
      · intro hft
        exact absurd hft (by simp)
      · intro hp
        exact absurd ⟨by omega, hp.2⟩ hcond
    · intro _
      rfl
    · intro htrue
      exact absurd htrue (by simp)

/-- Witness for c3_scope_nesting: a single live delete-on-exit guard
whose destruction brings the depth to 0 and invokes DeleteAll. -/
theorem c3_scope_nesting_witness :
    ({ Zone.fresh with scope_nesting_ := 1 } : Zone).scope_nesting_ =
      ([] : List ZoneScope).length + 1 ∧
    (scopeStep ({ Zone.fresh with scope_nesting_ := 1 },
      [{ mode_ := ZoneScopeMode.DELETE_ON_EXIT }]) ScopeEvent.destruct).2 =
      true :=
  ⟨rfl,
   (c3_scope_nesting { Zone.fresh with scope_nesting_ := 1 } []
      ZoneScopeMode.DELETE_ON_EXIT { mode_ := ZoneScopeMode.DELETE_ON_EXIT }
      [] rfl).2.2.1.mpr ⟨rfl, rfl⟩⟩

/-- C8: allocation attempted while at least one allocation-forbidden
guard is alive fails fatally, and the guards nest reentrantly: the
suppression state after a guard's destruction is exactly the one that
held before its construction, also for a nested inner guard. -/
theorem c8_forbidden_allocation (z w : Zone) (size : Nat)
    (halive : z.suppress_depth ≠ 0) :
    z.New size = none ∧
    (noAllocGuardConstruct w).2.New size = none ∧
    (noAllocGuardDestruct (noAllocGuardConstruct w).1
        (noAllocGuardConstruct w).2).suppress_depth = w.suppress_depth ∧
    (noAllocGuardDestruct (noAllocGuardConstruct w).1
        (noAllocGuardDestruct
          (noAllocGuardConstruct (noAllocGuardConstruct w).2).1
          (noAllocGuardConstruct (noAllocGuardConstruct w).2).2)).suppress_depth
      = w.suppress_depth := by
  refine ⟨?_, ?_, ?_, ?_⟩
  · simp [Zone.New, halive]
  · simp [Zone.New, noAllocGuardConstruct]
  · simp [noAllocGuardConstruct, noAllocGuardDestruct]
  · simp [noAllocGuardConstruct, noAllocGuardDestruct]

/-- Witness for c8_forbidden_allocation: with one guard alive the
suppression counter is 1 and allocation fails. -/
theorem c8_forbidden_allocation_witness :
    ({ Zone.fresh with suppress_depth := 1 } : Zone).suppress_depth ≠ 0 ∧
    ({ Zone.fresh with suppress_depth := 1 } : Zone).New 4 = none :=
  ⟨by decide,
   (c8_forbidden_allocation { Zone.fresh with suppress_depth := 1 }
      Zone.fresh 4 (by decide)).1⟩

/-- C9 counterexample: constructing G1 (dont-delete-on-exit) then G2
(delete-on-exit) and destroying G2 then G1 does NOT trigger a bulk free
at G2's destruction (third event): G2's destruction only drops the depth
from 2 to 1, so no event of the trace invokes DeleteAll at all. -/
theorem c9_counterexample :
    (runScopeEvents (Zone.fresh, [])
      [ScopeEvent.construct ZoneScopeMode.DONT_DELETE_ON_EXIT,
       ScopeEvent.construct ZoneScopeMode.DELETE_ON_EXIT,
       ScopeEvent.destruct, ScopeEvent.destruct]).2 ≠
      [false, false, true, false] ∧
    (runScopeEvents (Zone.fresh, [])
      [ScopeEvent.construct ZoneScopeMode.DONT_DELETE_ON_EXIT,
       ScopeEvent.construct ZoneScopeMode.DELETE_ON_EXIT,
       ScopeEvent.destruct, ScopeEvent.destruct]).2.count true = 0 := by
  decide

/-- C9 (amended): constructing G1 (dont-delete-on-exit), G2
(delete-on-exit) in that order, then destroying G2 then G1, triggers no
bulk free at all: G2's destruction drops the depth to 1, not 0, and when
the depth reaches 0 at G1's destruction G1 is not in delete-on-exit
mode.  Constructing G1 (delete-on-exit), G2 (dont-delete-on-exit) and
destroying G2 then G1 triggers DeleteAll exactly once, at G1's
destruction. -/
theorem c9_scope_scenarios (z : Zone) (hz : z.scope_nesting_ = 0) :
    (runScopeEvents (z, [])
      [ScopeEvent.construct ZoneScopeMode.DONT_DELETE_ON_EXIT,
       ScopeEvent.construct ZoneScopeMode.DELETE_ON_EXIT,
       ScopeEvent.destruct, ScopeEvent.destruct]).2 =
      [false, false, false, false] ∧
    (runScopeEvents (z, [])
      [ScopeEvent.construct ZoneScopeMode.DELETE_ON_EXIT,
       ScopeEvent.construct ZoneScopeMode.DONT_DELETE_ON_EXIT,
       ScopeEvent.destruct, ScopeEvent.destruct]).2 =
      [false, false, false, true] := by
  constructor <;> simp [runScopeEvents, scopeStep, hz]

/-- Witness for c9_scope_scenarios at a freshly constructed zone. -/
theorem c9_scope_scenarios_witness :
    Zone.fresh.scope_nesting_ = 0 ∧
    (runScopeEvents (Zone.fresh, [])
      [ScopeEvent.construct ZoneScopeMode.DELETE_ON_EXIT,
       ScopeEvent.construct ZoneScopeMode.DONT_DELETE_ON_EXIT,
       ScopeEvent.destruct, ScopeEvent.destruct]).2 =
      [false, false, false, true] :=
  ⟨rfl, (c9_scope_scenarios Zone.fresh rfl).2⟩

/-- C10 counterexample: DeleteOnExit is an idempotent set, not a toggle:
after a second call on a guard constructed in dont-delete-on-exit mode
the mode is still DELETE_ON_EXIT, it has not flipped back. -/
theorem c10_counterexample :
    (ZoneScope.DeleteOnExit (ZoneScope.DeleteOnExit
        { mode_ := ZoneScopeMode.DONT_DELETE_ON_EXIT })).mode_ =
      ZoneScopeMode.DELETE_ON_EXIT ∧
    ZoneScopeMode.DELETE_ON_EXIT ≠ ZoneScopeMode.DONT_DELETE_ON_EXIT := by
  decide

/-- C10 (amended): DeleteOnExit, callable at any time before the guard's
destruction, sets the guard's mode to delete-on-exit: after one call a
guard constructed in dont-delete-on-exit mode is in delete-on-exit mode,
and a second call leaves the guard unchanged (idempotent set, not a
flip). -/
theorem c10_delete_on_exit_sets (s : ZoneScope) :
    (s.DeleteOnExit).mode_ = ZoneScopeMode.DELETE_ON_EXIT ∧
    s.DeleteOnExit.DeleteOnExit = s.DeleteOnExit := ⟨rfl, rfl⟩

end ZoneModel
